import Mathlib

set_option autoImplicit false

namespace ElectionTester

/-!
Shallow embedding of `src/a0/electiontester.py`.

Python dictionaries are modelled as association lists (`List (α × β)`) so that
insertion order is preserved exactly as in CPython: assigning to a fresh key
appends the pair at the end, assigning to a present key updates it in place.
Python `int` is modelled as `Int`.  Mutation becomes explicit state passing.
The fallible import routine `Jurisdiction.read_results` returns the final
state together with an optional error, mirroring the fact that in Python an
exception propagates while mutations made before it persist.
-/

/-- Lookup of a key in an association list (Python `dict[k]` / `k in dict`). -/
def lookupA {α β : Type} [DecidableEq α] (k : α) : List (α × β) → Option β
  | [] => none
  | (a, b) :: rest => if a = k then some b else lookupA k rest

/-- Assignment `dict[k] = v`: updates the first binding of `k` in place, or
appends `(k, v)` at the end when `k` is absent (CPython insertion order). -/
def setKey {α β : Type} [DecidableEq α] (k : α) (v : β) : List (α × β) → List (α × β)
  | [] => [(k, v)]
  | (a, b) :: rest => if a = k then (k, v) :: rest else (a, b) :: setKey k v rest

/-- `datetime.date` restricted to the fields the program uses. -/
structure Date where
  year : Nat
  month : Nat
  day : Nat
deriving DecidableEq, Repr

/-- The `Election` class: date, riding list, party list, and the nested
results dictionary (riding → party → votes). -/
structure Election where
  d : Date
  ridings : List String
  parties : List String
  results : List (String × List (String × Int))
deriving DecidableEq, Repr

/-- `Election.__init__`: no ridings, parties or votes recorded so far. -/
def Election.init (d : Date) : Election :=
  { d := d, ridings := [], parties := [], results := [] }

/-- `Election.update_results`, translated line by line from the source:
guard `votes > 0`; append riding/party to the membership lists when absent;
create an empty row for the riding when absent; then either add `votes` to the
existing count for the party or store `votes` fresh. -/
def Election.update_results (e : Election) (riding party : String)
    (votes : Int) : Election :=
  if 0 < votes then
    let ridings := if riding ∈ e.ridings then e.ridings else e.ridings ++ [riding]
    let parties := if party ∈ e.parties then e.parties else e.parties ++ [party]
    let results := if (lookupA riding e.results).isSome then e.results
                   else setKey riding [] e.results
    match lookupA riding results with
    | some row =>
      let row1 := if (lookupA party row).isSome
                  then setKey party (votes + (lookupA party row).getD 0) row
                  else row
      let row2 := if (lookupA party row1).isSome then row1
                  else setKey party votes row1
      { d := e.d, ridings := ridings, parties := parties,
        results := setKey riding row2 results }
    | none =>
      { d := e.d, ridings := ridings, parties := parties, results := results }
  else e

/-- Modelled from the spec: `Election.results_for` is named by the class
docstring and the spec but its body is missing from `src`; per the spec it
returns the recorded vote count for `party` in `riding` and `0` (never an
error) when the riding or the party has no recorded votes. -/
def Election.results_for (e : Election) (riding party : String) : Int :=
  (lookupA party ((lookupA riding e.results).getD [])).getD 0

/-- Maximum recorded vote count in a riding row (0 for an empty row). -/
def maxVotes (row : List (String × Int)) : Int :=
  (row.map Prod.snd).foldl max 0

/-- Modelled from the spec: `Election.riding_winners` is named by the class
docstring and the spec but its body is missing from `src`; per the spec it
returns the parties whose recorded count in `riding` equals the maximum
recorded count there, and an empty sequence when `riding` has no recorded
votes. -/
def Election.riding_winners (e : Election) (riding : String) : List String :=
  match lookupA riding e.results with
  | none => []
  | some row => (row.filter (fun pv => decide (pv.2 = maxVotes row))).map Prod.fst

/-- Modelled from the spec: `Election.popular_vote` is named by the class
docstring and the spec but its body is missing from `src`; per the spec it
maps every known party to the sum of its vote counts across all ridings where
it has recorded votes. -/
def Election.popular_vote (e : Election) : List (String × Int) :=
  e.parties.map (fun p => (p, (e.results.map (fun rrow => (lookupA p rrow.2).getD 0)).sum))

/-- The `Jurisdiction` class: a name and the date-indexed election history. -/
structure Jurisdiction where
  name : String
  elections : List (Date × Election)
deriving DecidableEq, Repr

/-- `Jurisdiction.__init__`: no elections so far. -/
def Jurisdiction.init (name : String) : Jurisdiction :=
  { name := name, elections := [] }

/-- The Python exceptions `read_results` can raise. -/
inductive ReadError where
  | indexError
  | valueError
  | keyError
deriving DecidableEq, Repr

/-- Python `str.strip(c)` for a one-character argument: removes every leading
and trailing occurrence of `c`. -/
def stripChar (c : Char) (s : String) : String :=
  String.mk (((s.toList.dropWhile (fun a => a == c)).reverse.dropWhile
    (fun a => a == c)).reverse)

/-- Splitting a character list on every occurrence of `sep` (the semantics of
Python `str.split(sep)` for a one-character separator). -/
def splitChars (sep : Char) : List Char → List (List Char)
  | [] => [[]]
  | c :: cs =>
    match splitChars sep cs with
    | [] => [[c]]
    | r :: rs => if c == sep then [] :: r :: rs else (c :: r) :: rs

/-- Python `line.split(",")`. -/
def splitComma (s : String) : List String :=
  (splitChars ',' s.toList).map String.mk

/-- Python `str.strip()` with no argument: remove surrounding whitespace. -/
def trimWs (s : String) : String :=
  String.mk (((s.toList.dropWhile Char.isWhitespace).reverse.dropWhile
    Char.isWhitespace).reverse)

/-- A nonempty all-digit character list read as a natural number. -/
def parseNatDigits (cs : List Char) : Option Nat :=
  if cs ≠ [] ∧ cs.all (fun c => c.isDigit) then
    some (cs.foldl (fun acc c => acc * 10 + (c.toNat - 48)) 0)
  else none

/-- Python `int(s)`: surrounding whitespace ignored, optional sign, then a
nonempty digit string; anything else raises `ValueError` (here `none`). -/
def parseInt (s : String) : Option Int :=
  match (trimWs s).toList with
  | '-' :: rest => (parseNatDigits rest).map (fun n => -(n : Int))
  | '+' :: rest => (parseNatDigits rest).map (fun n => (n : Int))
  | cs => (parseNatDigits cs).map (fun n => (n : Int))

/-- The per-line body of the `read_results` loop: split on commas, take field
indices 1, 13 and 17 (IndexError when the line is too short), strip quotes
from riding and party, strip the newline from the vote field and parse it as
an integer (ValueError when non-numeric). -/
def parseLine (line : String) : Except ReadError (String × String × Int) :=
  let line_lst := splitComma line
  match line_lst.get? 1, line_lst.get? 13, line_lst.get? 17 with
  | some f1, some f13, some f17 =>
    match parseInt (stripChar '\n' f17) with
    | some votes => Except.ok (stripChar '\"' f1, stripChar '\"' f13, votes)
    | none => Except.error ReadError.valueError
  | _, _, _ => Except.error ReadError.indexError

/-- The `while True` loop of `read_results` over the remaining lines of the
stream: read a line, break on an empty read, otherwise parse it, look up the
election registered for the date (KeyError when absent) and forward the
triple to `update_results`.  Returns the final jurisdiction together with the
raised exception, if any. -/
def read_loop (d : Date) : Jurisdiction → List String → Jurisdiction × Option ReadError
  | j, [] => (j, none)
  | j, line :: rest =>
    if line = "" then (j, none)
    else
      match parseLine line with
      | Except.error err => (j, some err)
      | Except.ok (riding, party, votes) =>
        match lookupA d j.elections with
        | none => (j, some ReadError.keyError)
        | some e =>
          read_loop d
            { name := j.name,
              elections := setKey d (e.update_results riding party votes) j.elections }
            rest

/-- `Jurisdiction.read_results`: the first `readline` consumes the header,
then the loop processes the rest of the stream. -/
def Jurisdiction.read_results (j : Jurisdiction) (year month day : Nat)
    (input_stream : List String) : Jurisdiction × Option ReadError :=
  read_loop { year := year, month := month, day := day } j (input_stream.drop 1)

/-- Folding a batch of `update_results` calls over an election. -/
def applyUpdates (e : Election) (us : List (String × String × Int)) : Election :=
  us.foldl (fun a u => a.update_results u.1 u.2.1 u.2.2) e

/-! ### Association-list lemmas -/

theorem lookupA_setKey_self {α β : Type} [DecidableEq α] (k : α) (v : β)
    (l : List (α × β)) : lookupA k (setKey k v l) = some v := by
  induction l with
  | nil => simp [lookupA, setKey]
  | cons hd tl ih =>
    obtain ⟨a, b⟩ := hd
    by_cases h : a = k <;> simp [lookupA, setKey, h, ih]

theorem lookupA_setKey_ne {α β : Type} [DecidableEq α] {k k' : α} (v : β)
    (l : List (α × β)) (h : k' ≠ k) :
    lookupA k' (setKey k v l) = lookupA k' l := by
  have hk : ¬ k = k' := fun hh => h hh.symm
  induction l with
  | nil => simp [lookupA, setKey, hk]
  | cons hd tl ih =>
    obtain ⟨a, b⟩ := hd
    by_cases ha : a = k
    · subst ha
      simp [lookupA, setKey, hk]
    · simp [lookupA, setKey, ha, ih]

theorem setKey_of_lookupA_eq {α β : Type} [DecidableEq α] {k : α} {v : β}
    {l : List (α × β)} (h : lookupA k l = some v) : setKey k v l = l := by
  induction l with
  | nil => simp [lookupA] at h
  | cons hd tl ih =>
    obtain ⟨a, b⟩ := hd
    by_cases ha : a = k
    · subst ha
      simp [lookupA] at h
      simp [setKey, h]
    · simp [lookupA, ha] at h
      simp [setKey, ha, ih h]

theorem setKey_setKey {α β : Type} [DecidableEq α] (k : α) (v v' : β)
    (l : List (α × β)) : setKey k v (setKey k v' l) = setKey k v l := by
  induction l with
  | nil => simp [setKey]
  | cons hd tl ih =>
    obtain ⟨a, b⟩ := hd
    by_cases ha : a = k <;> simp [setKey, ha, ih]

/-! ### A closed form for `update_results` -/

/-- The row stored for `riding` (empty when the riding is unknown). -/
def rowOf (e : Election) (riding : String) : List (String × Int) :=
  (lookupA riding e.results).getD []

/-- Closed form of `update_results`, convenient for proofs: on a positive
delta, the (riding, party) cell becomes its old value (0 when absent) plus
`votes`, everything else is untouched. -/
def updateSpec (e : Election) (riding party : String) (votes : Int) : Election :=
  if 0 < votes then
    { d := e.d,
      ridings := if riding ∈ e.ridings then e.ridings else e.ridings ++ [riding],
      parties := if party ∈ e.parties then e.parties else e.parties ++ [party],
      results := setKey riding
        (setKey party (votes + (lookupA party (rowOf e riding)).getD 0) (rowOf e riding))
        e.results }
  else e

theorem update_results_eq_updateSpec (e : Election) (riding party : String)
    (votes : Int) :
    e.update_results riding party votes = updateSpec e riding party votes := by
  by_cases hv : 0 < votes
  · rcases hres : lookupA riding e.results with _ | row
    · simp [Election.update_results, updateSpec, rowOf, hv, hres,
        lookupA_setKey_self, lookupA, setKey_setKey]
    · rcases hp : lookupA party row with _ | h
      · simp [Election.update_results, updateSpec, rowOf, hv, hres, hp,
          lookupA_setKey_self]
      · simp [Election.update_results, updateSpec, rowOf, hv, hres, hp,
          lookupA_setKey_self]
  · simp [Election.update_results, updateSpec, hv]

theorem update_d (e : Election) (r p : String) (v : Int) :
    (e.update_results r p v).d = e.d := by
  rw [update_results_eq_updateSpec]
  unfold updateSpec
  by_cases hv : 0 < v <;> simp [hv]

theorem update_ridings (e : Election) (r p : String) (v : Int) :
    (e.update_results r p v).ridings =
      if 0 < v then (if r ∈ e.ridings then e.ridings else e.ridings ++ [r])
      else e.ridings := by
  rw [update_results_eq_updateSpec]
  unfold updateSpec
  by_cases hv : 0 < v <;> simp [hv]

theorem update_parties (e : Election) (r p : String) (v : Int) :
    (e.update_results r p v).parties =
      if 0 < v then (if p ∈ e.parties then e.parties else e.parties ++ [p])
      else e.parties := by
  rw [update_results_eq_updateSpec]
  unfold updateSpec
  by_cases hv : 0 < v <;> simp [hv]

theorem update_results_field (e : Election) (r p : String) (v : Int) :
    (e.update_results r p v).results =
      if 0 < v then
        setKey r (setKey p (v + (lookupA p (rowOf e r)).getD 0) (rowOf e r)) e.results
      else e.results := by
  rw [update_results_eq_updateSpec]
  unfold updateSpec
  by_cases hv : 0 < v <;> simp [hv]

/-- Effect of one update on one cell: add `v` to the targeted cell when
`v > 0`, leave every cell unchanged otherwise. -/
theorem results_for_update (e : Election) (r' p' : String) (v : Int)
    (r p : String) :
    (e.update_results r' p' v).results_for r p =
      e.results_for r p + (if r' = r ∧ p' = p ∧ 0 < v then v else 0) := by
  rw [update_results_eq_updateSpec]
  unfold updateSpec Election.results_for
  by_cases hv : 0 < v
  · simp only [hv, if_true]
    by_cases hr : r' = r
    · subst hr
      rw [lookupA_setKey_self]
      by_cases hp : p' = p
      · subst hp
        rw [Option.getD_some, lookupA_setKey_self, Option.getD_some]
        simp [rowOf]
        omega
      · rw [Option.getD_some, lookupA_setKey_ne _ _ (fun hh => hp hh.symm)]
        simp [rowOf, hp]
    · rw [lookupA_setKey_ne _ _ (fun hh => hr hh.symm)]
      simp [hr]
  · simp [hv]

/-- Running a batch of updates adds, cell by cell, the sum of the positive
deltas aimed at that cell. -/
theorem results_for_applyUpdates (e : Election) (us : List (String × String × Int))
    (r p : String) :
    (applyUpdates e us).results_for r p =
      e.results_for r p +
        ((us.filter (fun u => decide (u.1 = r ∧ u.2.1 = p ∧ 0 < u.2.2))).map
          (fun u => u.2.2)).sum := by
  induction us generalizing e with
  | nil => simp [applyUpdates]
  | cons u rest ih =>
    obtain ⟨r', p', v⟩ := u
    simp only [applyUpdates, List.foldl_cons] at ih ⊢
    rw [ih, results_for_update]
    by_cases h : r' = r ∧ p' = p ∧ 0 < v
    · rw [if_pos h, List.filter_cons]
      simp only [decide_eq_true_eq]
      rw [if_pos h]
      simp only [List.map_cons, List.sum_cons]
      ring
    · rw [if_neg h, List.filter_cons]
      simp only [decide_eq_true_eq]
      rw [if_neg h]
      ring

/-- C1: starting from a fresh election, if every update in the batch that
targets riding `r` and party `p` carries a positive vote delta, then after the
whole batch (the targeted updates interleaved arbitrarily with updates to
other cells) the stored count for `(r, p)` is exactly the sum of those
deltas: repeated updates accumulate, never overwrite. -/
theorem C1_accumulation (d : Date) (us : List (String × String × Int))
    (r p : String)
    (hpos : ∀ u ∈ us, u.1 = r → u.2.1 = p → 0 < u.2.2) :
    (applyUpdates (Election.init d) us).results_for r p =
      ((us.filter (fun u => decide (u.1 = r ∧ u.2.1 = p))).map
        (fun u => u.2.2)).sum := by
  rw [results_for_applyUpdates]
  have hbase : (Election.init d).results_for r p = 0 := by
    simp [Election.results_for, Election.init, lookupA]
  rw [hbase, zero_add]
  have hfilter :
      us.filter (fun u => decide (u.1 = r ∧ u.2.1 = p ∧ 0 < u.2.2)) =
        us.filter (fun u => decide (u.1 = r ∧ u.2.1 = p)) := by
    apply List.filter_congr
    intro u hu
    by_cases h1 : u.1 = r ∧ u.2.1 = p
    · have := hpos u hu h1.1 h1.2
      simp [h1, this]
    · simp only [decide_eq_decide]
      constructor
      · intro h; exact absurd ⟨h.1, h.2.1⟩ h1
      · intro h; exact absurd h h1
  rw [hfilter]

/-- Witness for C1 at a concrete batch: two positive updates to
`("r1", "ndp")` interleaved with one to `("r1", "lib")` accumulate to `1 + 3`. -/
theorem C1_accumulation_witness :
    (applyUpdates (Election.init ⟨2000, 2, 8⟩)
        [("r1", "ndp", 1), ("r1", "lib", 2), ("r1", "ndp", 3)]).results_for "r1" "ndp" =
      (([("r1", "ndp", (1 : Int)), ("r1", "lib", 2), ("r1", "ndp", 3)].filter
          (fun u => decide (u.1 = "r1" ∧ u.2.1 = "ndp"))).map (fun u => u.2.2)).sum :=
  C1_accumulation ⟨2000, 2, 8⟩ _ "r1" "ndp" (by decide)

/-- C2: a non-positive vote delta is a silent no-op: the whole election state
is returned unchanged, so nothing is stored and no riding or party is
registered. -/
theorem C2_nonpositive_noop (e : Election) (r p : String) (v : Int)
    (hv : v ≤ 0) : e.update_results r p v = e := by
  rw [update_results_eq_updateSpec]
  unfold updateSpec
  have : ¬ 0 < v := by omega
  simp [this]

/-- Witness for C2: updating with `0` and with `-5` leaves a concrete
election untouched. -/
theorem C2_nonpositive_noop_witness :
    (Election.init ⟨2000, 2, 8⟩).update_results "r1" "ndp" 0 =
      Election.init ⟨2000, 2, 8⟩ :=
  C2_nonpositive_noop (Election.init ⟨2000, 2, 8⟩) "r1" "ndp" 0 (by decide)

theorem lookupA_eq_none {α β : Type} [DecidableEq α] (k : α) (l : List (α × β)) :
    lookupA k l = none ↔ k ∉ l.map Prod.fst := by
  induction l with
  | nil => simp [lookupA]
  | cons hd tl ih =>
    obtain ⟨a, b⟩ := hd
    by_cases ha : a = k
    · subst ha
      simp [lookupA]
    · have ha' : ¬ k = a := fun hh => ha hh.symm
      simp [lookupA, ha, ha', ih]

theorem lookupA_isSome_iff {α β : Type} [DecidableEq α] (k : α) (l : List (α × β)) :
    (lookupA k l).isSome ↔ k ∈ l.map Prod.fst := by
  rw [Option.isSome_iff_ne_none, Ne, lookupA_eq_none, not_not]

theorem lookupA_mem {α β : Type} [DecidableEq α] {k : α} {v : β} {l : List (α × β)}
    (h : lookupA k l = some v) : (k, v) ∈ l := by
  induction l with
  | nil => simp [lookupA] at h
  | cons hd tl ih =>
    obtain ⟨a, b⟩ := hd
    by_cases ha : a = k
    · subst ha
      simp [lookupA] at h
      simp [h]
    · simp [lookupA, ha] at h
      simp [ih h]

theorem mem_setKey {α β : Type} [DecidableEq α] {x : α × β} {k : α} {v : β}
    {l : List (α × β)} (h : x ∈ setKey k v l) : x = (k, v) ∨ x ∈ l := by
  induction l with
  | nil =>
    simp [setKey] at h
    simp [h]
  | cons hd tl ih =>
    obtain ⟨a, b⟩ := hd
    by_cases ha : a = k
    · subst ha
      simp [setKey] at h
      rcases h with h | h <;> simp [h]
    · simp [setKey, ha] at h
      rcases h with h | h
      · simp [h]
      · rcases ih h with h' | h' <;> simp [h']

theorem setKey_ne_nil {α β : Type} [DecidableEq α] (k : α) (v : β)
    (l : List (α × β)) : setKey k v l ≠ [] := by
  induction l with
  | nil => simp [setKey]
  | cons hd tl ih =>
    obtain ⟨a, b⟩ := hd
    by_cases ha : a = k <;> simp [setKey, ha]

theorem keys_setKey {α β : Type} [DecidableEq α] (k : α) (v : β)
    (l : List (α × β)) :
    (setKey k v l).map Prod.fst =
      if (lookupA k l).isSome then l.map Prod.fst else l.map Prod.fst ++ [k] := by
  induction l with
  | nil => simp [setKey, lookupA]
  | cons hd tl ih =>
    obtain ⟨a, b⟩ := hd
    by_cases ha : a = k
    · subst ha
      simp [setKey, lookupA]
    · simp only [setKey, ha, if_false, List.map_cons, lookupA, ih]
      by_cases hs : (lookupA k tl).isSome <;> simp [hs]

theorem lookupA_of_mem_nodup {α β : Type} [DecidableEq α] {k : α} {v : β}
    {l : List (α × β)} (hn : (l.map Prod.fst).Nodup) (h : (k, v) ∈ l) :
    lookupA k l = some v := by
  induction l with
  | nil => simp at h
  | cons hd tl ih =>
    obtain ⟨a, b⟩ := hd
    simp only [List.map_cons, List.nodup_cons] at hn
    simp only [List.mem_cons] at h
    rcases h with h | h
    · rw [Prod.mk.injEq] at h
      obtain ⟨h1, h2⟩ := h
      subst h1; subst h2
      simp [lookupA]
    · have ha : ¬ a = k := by
        rintro rfl
        exact hn.1 (List.mem_map_of_mem Prod.fst h)
      simp [lookupA, ha, ih hn.2 h]

/-! ### Representation invariants -/

/-- The three representation invariants from the `Election` docstring:
`ridings` lists exactly the keys of `results`; `parties` lists exactly the
inner keys appearing in some row; every stored count is strictly positive. -/
def Election.wf (e : Election) : Prop :=
  (∀ r : String, r ∈ e.ridings ↔ (lookupA r e.results).isSome) ∧
  (∀ p : String, p ∈ e.parties ↔
    ∃ r row, lookupA r e.results = some row ∧ (lookupA p row).isSome) ∧
  (∀ r row, lookupA r e.results = some row → ∀ p v, lookupA p row = some v → 0 < v)

/-- No duplicate keys in an association list. -/
def nodupKeys {α β : Type} (l : List (α × β)) : Prop := (l.map Prod.fst).Nodup

/-- Structural bookkeeping facts that hold in every reachable state: the
membership lists have no duplicates, the dictionaries have no duplicate keys,
and no riding row is empty. -/
def Election.tidy (e : Election) : Prop :=
  e.ridings.Nodup ∧ e.parties.Nodup ∧ nodupKeys e.results ∧
  (∀ rrow ∈ e.results, nodupKeys rrow.2 ∧ rrow.2 ≠ [])

def Election.inv (e : Election) : Prop := e.wf ∧ e.tidy

theorem mem_addIfAbsent {α : Type} [DecidableEq α] (x y : α) (l : List α) :
    (x ∈ if y ∈ l then l else l ++ [y]) ↔ x ∈ l ∨ x = y := by
  by_cases h : y ∈ l
  · simp only [h, if_true]
    constructor
    · exact Or.inl
    · rintro (hx | rfl)
      · exact hx
      · exact h
  · simp [h, List.mem_append]

theorem nodup_addIfAbsent {α : Type} [DecidableEq α] {l : List α} (y : α)
    (h : l.Nodup) : (if y ∈ l then l else l ++ [y]).Nodup := by
  by_cases hy : y ∈ l
  · simpa [hy] using h
  · simp [hy, List.nodup_append, h]

theorem nodupKeys_setKey {α β : Type} [DecidableEq α] {l : List (α × β)}
    (k : α) (v : β) (h : nodupKeys l) : nodupKeys (setKey k v l) := by
  unfold nodupKeys at h ⊢
  rw [keys_setKey]
  by_cases hs : (lookupA k l).isSome
  · simpa [hs] using h
  · have hnot : k ∉ l.map Prod.fst := by
      rw [← lookupA_isSome_iff]
      exact hs
    simp [hs, List.nodup_append, h, hnot]

theorem val_pos (e : Election)
    (h3 : ∀ r row, lookupA r e.results = some row →
      ∀ p v, lookupA p row = some v → 0 < v)
    (r' p' : String) {v : Int} (hv : 0 < v) :
    0 < v + (lookupA p' (rowOf e r')).getD 0 := by
  rcases h : lookupA p' (rowOf e r') with _ | w
  · simpa [h] using hv
  · rcases h2 : lookupA r' e.results with _ | row
    · rw [rowOf, h2] at h
      simp [lookupA] at h
    · rw [rowOf, h2] at h
      simp only [Option.getD_some] at h ⊢
      have hw : 0 < w := h3 r' row h2 p' w (by simpa using h)
      simp [h]
      omega

theorem rowOf_nodupKeys (e : Election)
    (hrows : ∀ rrow ∈ e.results, nodupKeys rrow.2 ∧ rrow.2 ≠ [])
    (r' : String) : nodupKeys (rowOf e r') := by
  rcases h : lookupA r' e.results with _ | row
  · simp [rowOf, h, nodupKeys]
  · rw [rowOf, h]
    exact (hrows (r', row) (lookupA_mem h)).1

/-- One `update_results` call preserves the full invariant. -/
theorem inv_update (e : Election) (r' p' : String) (v : Int) (he : e.inv) :
    (e.update_results r' p' v).inv := by
  rw [update_results_eq_updateSpec]
  unfold updateSpec
  by_cases hv : 0 < v
  case neg => simpa [hv] using he
  simp only [hv, if_true]
  obtain ⟨⟨h1, h2, h3⟩, hnr, hnp, hk, hrows⟩ := he
  unfold Election.inv Election.wf Election.tidy
  dsimp only
  refine ⟨⟨?_, ?_, ?_⟩, ?_, ?_, ?_, ?_⟩
  · -- invariant 1: ridings list exactly the result keys
    intro x
    rw [mem_addIfAbsent]
    by_cases hx : x = r'
    · subst hx
      simp [lookupA_setKey_self]
    · rw [lookupA_setKey_ne _ _ hx]
      simp [hx, h1 x]
  · -- invariant 2: parties list exactly the inner keys
    intro x
    rw [mem_addIfAbsent]
    constructor
    · rintro (hx | rfl)
      · obtain ⟨rr, row, hrr, hxrow⟩ := (h2 x).mp hx
        by_cases hr : rr = r'
        · subst hr
          refine ⟨rr, _, lookupA_setKey_self _ _ _, ?_⟩
          have hrow0 : rowOf e rr = row := by rw [rowOf, hrr]; rfl
          by_cases hp2 : x = p'
          · subst hp2
            simp [lookupA_setKey_self]
          · rw [lookupA_setKey_ne _ _ hp2, hrow0]
            exact hxrow
        · exact ⟨rr, row, by rw [lookupA_setKey_ne _ _ hr]; exact hrr, hxrow⟩
      · exact ⟨r', _, lookupA_setKey_self _ _ _, by simp [lookupA_setKey_self]⟩
    · rintro ⟨rr, row, hrr, hxrow⟩
      by_cases hr : rr = r'
      · subst hr
        rw [lookupA_setKey_self] at hrr
        injection hrr with hrr'
        subst hrr'
        by_cases hp2 : x = p'
        · right; exact hp2
        · left
          rw [lookupA_setKey_ne _ _ hp2] at hxrow
          rcases hres : lookupA rr e.results with _ | oldrow
          · rw [rowOf, hres] at hxrow
            simp [lookupA] at hxrow
          · rw [rowOf, hres] at hxrow
            exact (h2 x).mpr ⟨rr, oldrow, hres, by simpa using hxrow⟩
      · rw [lookupA_setKey_ne _ _ hr] at hrr
        left
        exact (h2 x).mpr ⟨rr, row, hrr, hxrow⟩
  · -- invariant 3: stored counts are positive
    intro rr row hrr q w hq
    by_cases hr : rr = r'
    · subst hr
      rw [lookupA_setKey_self] at hrr
      injection hrr with hrr'
      subst hrr'
      by_cases hp2 : q = p'
      · subst hp2
        rw [lookupA_setKey_self] at hq
        injection hq with hq'
        subst hq'
        exact val_pos e h3 rr q hv
      · rw [lookupA_setKey_ne _ _ hp2] at hq
        rcases hres : lookupA rr e.results with _ | oldrow
        · rw [rowOf, hres] at hq
          simp [lookupA] at hq
        · rw [rowOf, hres] at hq
          exact h3 rr oldrow hres q w (by simpa using hq)
    · rw [lookupA_setKey_ne _ _ hr] at hrr
      exact h3 rr row hrr q w hq
  · exact nodup_addIfAbsent r' hnr
  · exact nodup_addIfAbsent p' hnp
  · exact nodupKeys_setKey r' _ hk
  · intro rrow hmem
    rcases mem_setKey hmem with h' | h'
    · subst h'
      exact ⟨nodupKeys_setKey p' _ (rowOf_nodupKeys e hrows r'), setKey_ne_nil _ _ _⟩
    · exact hrows rrow h'

theorem inv_init (d : Date) : (Election.init d).inv := by
  unfold Election.inv Election.wf Election.tidy Election.init nodupKeys
  simp [lookupA]

theorem inv_applyUpdates (d : Date) (us : List (String × String × Int)) :
    (applyUpdates (Election.init d) us).inv := by
  suffices h : ∀ (e : Election), e.inv → (applyUpdates e us).inv from
    h _ (inv_init d)
  induction us with
  | nil => intro e he; simpa [applyUpdates] using he
  | cons u rest ih =>
    intro e he
    simpa [applyUpdates] using ih _ (inv_update e u.1 u.2.1 u.2.2 he)

/-- C3: every election state reachable from a fresh `Election(d)` by a batch
of `update_results` calls satisfies the three documented representation
invariants: `ridings` holds exactly the keys of `results`, `parties` holds
exactly the inner keys of the rows, and every stored vote count is strictly
positive. -/
theorem C3_invariants (d : Date) (us : List (String × String × Int)) :
    (applyUpdates (Election.init d) us).wf :=
  (inv_applyUpdates d us).1

/-! ### Riding winners -/

theorem le_foldl_max_init (l : List Int) (a : Int) : a ≤ l.foldl max a := by
  induction l generalizing a with
  | nil => simp
  | cons x xs ih =>
    simp only [List.foldl_cons]
    exact le_trans (le_max_left a x) (ih (max a x))

theorem le_foldl_max_of_mem {l : List Int} {x : Int} (h : x ∈ l) (a : Int) :
    x ≤ l.foldl max a := by
  induction l generalizing a with
  | nil => simp at h
  | cons y ys ih =>
    simp only [List.foldl_cons]
    rcases List.mem_cons.mp h with rfl | h'
    · exact le_trans (le_max_right a x) (le_foldl_max_init ys _)
    · exact ih h' _

theorem foldl_max_mem (l : List Int) (a : Int) :
    l.foldl max a = a ∨ l.foldl max a ∈ l := by
  induction l generalizing a with
  | nil => simp
  | cons y ys ih =>
    simp only [List.foldl_cons]
    rcases ih (max a y) with h | h
    · rcases le_or_lt y a with hy | hy
      · left
        rw [h, max_eq_left hy]
      · right
        rw [h, max_eq_right hy.le]
        simp
    · right
      simp [h]

/-- In an invariant-satisfying state, a party is among `riding_winners riding`
exactly when it has a positive recorded count there that every other party's
count (0 when absent) does not exceed. -/
theorem riding_winners_iff (e : Election) (he : e.inv) (r p : String) :
    p ∈ e.riding_winners r ↔
      (0 < e.results_for r p ∧
        ∀ q : String, e.results_for r q ≤ e.results_for r p) := by
  obtain ⟨⟨h1, h2, h3⟩, hnr, hnp, hk, hrows⟩ := he
  unfold Election.riding_winners
  rcases hres : lookupA r e.results with _ | row
  · have hrf : e.results_for r p = 0 := by
      simp [Election.results_for, hres, lookupA]
    simp [hrf]
  · have hrowmem : (r, row) ∈ e.results := lookupA_mem hres
    have hrnodup : nodupKeys row := (hrows _ hrowmem).1
    have hrne : row ≠ [] := (hrows _ hrowmem).2
    have hpos : ∀ q w, lookupA q row = some w → 0 < w := h3 r row hres
    have hrf : ∀ q, e.results_for r q = (lookupA q row).getD 0 := by
      intro q
      simp [Election.results_for, hres]
    have hvalpos : ∀ w ∈ row.map Prod.snd, 0 < w := by
      intro w hw
      obtain ⟨⟨q, w'⟩, hmem, hw'⟩ := List.mem_map.mp hw
      cases hw'
      exact hpos q _ (lookupA_of_mem_nodup hrnodup hmem)
    have hub : ∀ w ∈ row.map Prod.snd, w ≤ maxVotes row := by
      intro w hw
      exact le_foldl_max_of_mem hw 0
    have hattained : maxVotes row ∈ row.map Prod.snd := by
      rcases foldl_max_mem (row.map Prod.snd) 0 with h | h
      · exfalso
        obtain ⟨pv, hpv⟩ := List.exists_mem_of_ne_nil row hrne
        have h1' := hvalpos pv.2 (List.mem_map_of_mem Prod.snd hpv)
        have h2' := hub pv.2 (List.mem_map_of_mem Prod.snd hpv)
        rw [maxVotes, h] at h2'
        omega
      · exact h
    have hmpos : 0 < maxVotes row := hvalpos _ hattained
    simp only [List.mem_map, List.mem_filter, decide_eq_true_eq]
    constructor
    · rintro ⟨⟨p0, w⟩, ⟨hmem, hwm⟩, hp0⟩
      dsimp only at hwm hp0
      have hlook : lookupA p row = some w := by
        rw [← hp0]
        exact lookupA_of_mem_nodup hrnodup hmem
      constructor
      · rw [hrf, hlook, Option.getD_some, hwm]
        exact hmpos
      · intro q
        rw [hrf, hrf, hlook, Option.getD_some]
        rcases hq : lookupA q row with _ | w'
        · rw [hwm]
          simpa using hmpos.le
        · rw [Option.getD_some, hwm]
          exact hub w' (List.mem_map_of_mem Prod.snd (lookupA_mem hq))
    · rintro ⟨hppos, hmax⟩
      rw [hrf] at hppos
      rcases hq : lookupA p row with _ | w
      · rw [hq] at hppos
        simp at hppos
      · rw [hq, Option.getD_some] at hppos
        have hwle : w ≤ maxVotes row := by
          apply hub
          exact List.mem_map_of_mem Prod.snd (lookupA_mem hq)
        have hmle : maxVotes row ≤ w := by
          obtain ⟨⟨q0, m0⟩, hq0mem, hm0⟩ := List.mem_map.mp hattained
          dsimp only at hm0
          have hq0 : lookupA q0 row = some m0 :=
            lookupA_of_mem_nodup hrnodup hq0mem
          have hh := hmax q0
          rw [hrf, hrf, hq, hq0, Option.getD_some, Option.getD_some] at hh
          rw [← hm0]
          exact hh
        have hwm : w = maxVotes row := le_antisymm hwle hmle
        exact ⟨(p, w), ⟨lookupA_mem hq, hwm⟩, rfl⟩

/-- C5: in every reachable election state, `riding_winners r` contains exactly
the parties whose recorded count in `r` equals the maximum recorded count
there (every tied leader included, no tiebreak), and it is empty when `r` has
no recorded votes at all. -/
theorem C5_riding_winners (d : Date) (us : List (String × String × Int))
    (r : String) :
    (∀ p : String,
      p ∈ (applyUpdates (Election.init d) us).riding_winners r ↔
        (0 < (applyUpdates (Election.init d) us).results_for r p ∧
          ∀ q : String, (applyUpdates (Election.init d) us).results_for r q ≤
            (applyUpdates (Election.init d) us).results_for r p)) ∧
    (lookupA r (applyUpdates (Election.init d) us).results = none →
      (applyUpdates (Election.init d) us).riding_winners r = []) := by
  constructor
  · intro p
    exact riding_winners_iff _ (inv_applyUpdates d us) r p
  · intro hnone
    unfold Election.riding_winners
    rw [hnone]

/-- Witness for C5: after the spec's sample updates, a riding with no
recorded votes yields an empty winners list. -/
theorem C5_riding_winners_witness :
    (applyUpdates (Election.init ⟨2000, 2, 8⟩)
        [("r1", "ndp", 1234), ("r1", "lib", 1345), ("r1", "pc", 1456)]).riding_winners
      "nowhere" = [] :=
  (C5_riding_winners ⟨2000, 2, 8⟩ _ "nowhere").2 (by decide)

/-! ### Popular vote and single-cell queries -/

theorem map_congr_mem {α β : Type} {f g : α → β} :
    ∀ {l : List α}, (∀ x ∈ l, f x = g x) → l.map f = l.map g
  | [], _ => rfl
  | x :: xs, h => by
    simp only [List.map_cons]
    rw [h x (List.mem_cons_self x xs), map_congr_mem (fun y hy => h y (List.mem_cons_of_mem x hy))]

theorem lookupA_map_self {β : Type} (f : String → β) (l : List String)
    (p : String) :
    lookupA p (l.map (fun q => (q, f q))) = if p ∈ l then some (f p) else none := by
  induction l with
  | nil => simp [lookupA]
  | cons a tl ih =>
    by_cases ha : a = p
    · subst ha
      simp [lookupA]
    · have ha' : ¬ p = a := fun hh => ha hh.symm
      simp [lookupA, ha, ha', ih]

/-- In an invariant-satisfying state, looking a party up in `popular_vote`
yields its summed count over all known ridings when the party is known, and
nothing otherwise. -/
theorem popular_vote_lookup (e : Election) (he : e.inv) (p : String) :
    lookupA p e.popular_vote =
      if p ∈ e.parties then
        some ((e.ridings.map (fun r => e.results_for r p)).sum)
      else none := by
  obtain ⟨⟨h1, h2, h3⟩, hnr, hnp, hk, hrows⟩ := he
  unfold Election.popular_vote
  rw [lookupA_map_self]
  by_cases hp : p ∈ e.parties
  · simp only [hp, if_true]
    congr 1
    have hmapeq : e.results.map (fun rrow => (lookupA p rrow.2).getD 0) =
        e.results.map (fun rrow => e.results_for rrow.1 p) := by
      apply map_congr_mem
      intro rrow hmem
      have hl : lookupA rrow.1 e.results = some rrow.2 := by
        apply lookupA_of_mem_nodup hk
        simpa using hmem
      simp [Election.results_for, hl]
    have hcomp : e.results.map (fun rrow => e.results_for rrow.1 p) =
        (e.results.map Prod.fst).map (fun r => e.results_for r p) := by
      rw [List.map_map]
      rfl
    have hperm : (e.results.map Prod.fst).Perm e.ridings := by
      rw [List.perm_ext_iff_of_nodup hk hnr]
      intro a
      exact (lookupA_isSome_iff a e.results).symm.trans (h1 a).symm
    rw [hmapeq, hcomp, (hperm.map (fun r => e.results_for r p)).sum_eq]
  · simp [hp]

/-- C6: in every reachable election state, `popular_vote` has exactly the
known parties as keys, and maps each known party to the sum of its recorded
counts over all known ridings (ridings where it has no votes contribute 0). -/
theorem C6_popular_vote (d : Date) (us : List (String × String × Int))
    (p : String) :
    ((lookupA p (applyUpdates (Election.init d) us).popular_vote).isSome ↔
      p ∈ (applyUpdates (Election.init d) us).parties) ∧
    (∀ s : Int,
      lookupA p (applyUpdates (Election.init d) us).popular_vote = some s →
      s = ((applyUpdates (Election.init d) us).ridings.map
        (fun r => (applyUpdates (Election.init d) us).results_for r p)).sum) := by
  have hpv := popular_vote_lookup _ (inv_applyUpdates d us) p
  constructor
  · rw [hpv]
    by_cases hp : p ∈ (applyUpdates (Election.init d) us).parties <;> simp [hp]
  · intro s hs
    rw [hpv] at hs
    by_cases hp : p ∈ (applyUpdates (Election.init d) us).parties
    · rw [if_pos hp] at hs
      injection hs with hs'
      exact hs'.symm
    · rw [if_neg hp] at hs
      cases hs

/-- Witness for C6 at the spec's sample updates: the party `pc` totals
`1456 + 1 = 1457` across the two ridings. -/
theorem C6_popular_vote_witness :
    (1457 : Int) =
      ((applyUpdates (Election.init ⟨2000, 2, 8⟩)
          [("r1", "ndp", 1234), ("r1", "lib", 1345), ("r1", "pc", 1456),
            ("r2", "pc", 1)]).ridings.map
        (fun r => (applyUpdates (Election.init ⟨2000, 2, 8⟩)
          [("r1", "ndp", 1234), ("r1", "lib", 1345), ("r1", "pc", 1456),
            ("r2", "pc", 1)]).results_for r "pc")).sum :=
  (C6_popular_vote ⟨2000, 2, 8⟩
    [("r1", "ndp", 1234), ("r1", "lib", 1345), ("r1", "pc", 1456),
      ("r2", "pc", 1)] "pc").2 1457 (by decide)

/-- C7: `results_for` returns the recorded count when riding and party are
both present, and 0 — not an error — when either the riding or the party has
no recorded votes. -/
theorem C7_results_for (e : Election) (r p : String) :
    (∀ row v, lookupA r e.results = some row → lookupA p row = some v →
      e.results_for r p = v) ∧
    (lookupA r e.results = none → e.results_for r p = 0) ∧
    (∀ row, lookupA r e.results = some row → lookupA p row = none →
      e.results_for r p = 0) := by
  refine ⟨?_, ?_, ?_⟩
  · intro row v h1 h2
    simp [Election.results_for, h1, h2]
  · intro h
    simp [Election.results_for, h, lookupA]
  · intro row h1 h2
    simp [Election.results_for, h1, h2]

/-- Witness for C7: querying a riding with no recorded votes returns 0. -/
theorem C7_results_for_witness :
    (Election.init ⟨2000, 2, 8⟩).results_for "nonexistent" "any" = 0 :=
  (C7_results_for (Election.init ⟨2000, 2, 8⟩) "nonexistent" "any").2.1 rfl

/-! ### The import loop -/

/-- Parsing a sequence of data lines in order, failing on the first bad one. -/
def parseAll : List String → Option (List (String × String × Int))
  | [] => some []
  | l :: ls =>
    match parseLine l with
    | Except.ok t => (parseAll ls).map (fun ts => t :: ts)
    | Except.error _ => none

/-- Running the loop over a prefix of well-formed, non-empty lines applies
exactly the parsed triples to the election registered for `d` and continues
with the rest of the stream. -/
theorem read_loop_append (d : Date) (good : List String) :
    ∀ (j : Jurisdiction) (e : Election)
      (triples : List (String × String × Int)) (tail : List String),
      lookupA d j.elections = some e →
      (∀ l ∈ good, l ≠ "") →
      parseAll good = some triples →
      read_loop d j (good ++ tail) =
        read_loop d
          { name := j.name,
            elections := setKey d (applyUpdates e triples) j.elections } tail := by
  induction good with
  | nil =>
    intro j e triples tail hreg _ hparse
    simp only [parseAll] at hparse
    injection hparse with h
    subst h
    simp only [applyUpdates, List.foldl_nil, List.nil_append]
    rw [setKey_of_lookupA_eq hreg]
  | cons l good' ih =>
    intro j e triples tail hreg hne hparse
    have hl : l ≠ "" := hne l (List.mem_cons_self _ _)
    simp only [parseAll] at hparse
    rcases hpl : parseLine l with err | t
    · rw [hpl] at hparse
      cases hparse
    · rw [hpl] at hparse
      rcases hpa : parseAll good' with _ | ts
      · rw [hpa] at hparse
        cases hparse
      · rw [hpa] at hparse
        dsimp only at hparse
        rw [Option.map_some'] at hparse
        injection hparse with h
        subst h
        obtain ⟨tr, tp, tv⟩ := t
        simp only [List.cons_append, read_loop]
        rw [if_neg hl, hpl, hreg]
        dsimp only
        simp only [List.append_eq]
        rw [ih { name := j.name,
                 elections := setKey d (e.update_results tr tp tv) j.elections }
            (e.update_results tr tp tv) ts tail (lookupA_setKey_self _ _ _)
            (fun x hx => hne x (List.mem_cons_of_mem l hx)) hpa]
        simp only [setKey_setKey]
        rfl

/-- The tail left after the well-formed prefix either is empty or starts with
an empty read, so the loop stops there without touching the state. -/
theorem read_loop_stop (d : Date) (j : Jurisdiction) (tail : List String)
    (h : tail.head?.getD "" = "") : read_loop d j tail = (j, none) := by
  rcases tail with _ | ⟨l0, rest⟩
  · rfl
  · simp only [List.head?_cons, Option.getD_some] at h
    simp [read_loop, h]

/-- C4: with an election registered for the date, `read_results` skips
exactly the header line, processes the subsequent lines up to the first empty
read (the loop's only stopping point), parses each such line with `parseLine`
(field 1 as riding and field 13 as party with quotes stripped, field 17 as
the vote count with the newline stripped), and forwards every parsed triple,
in order, to that election's `update_results`. -/
theorem C4_read_results_forwards (j : Jurisdiction) (year month day : Nat)
    (e : Election) (lines : List String)
    (triples : List (String × String × Int))
    (hreg : lookupA ⟨year, month, day⟩ j.elections = some e)
    (hparse :
      parseAll ((lines.drop 1).takeWhile (fun l => !(l == ""))) = some triples) :
    j.read_results year month day lines =
      ({ name := j.name,
         elections :=
           setKey ⟨year, month, day⟩ (applyUpdates e triples) j.elections },
       none) := by
  unfold Jurisdiction.read_results
  have hsplit : lines.drop 1 =
      (lines.drop 1).takeWhile (fun l => !(l == "")) ++
        (lines.drop 1).dropWhile (fun l => !(l == "")) :=
    (List.takeWhile_append_dropWhile _ _).symm
  rw [hsplit, read_loop_append _ _ _ _ _ _ hreg ?hne hparse]
  case hne =>
    intro x hx
    have := List.mem_takeWhile_imp hx
    simpa using this
  apply read_loop_stop
  rcases hdw : (lines.drop 1).dropWhile (fun l => !(l == "")) with _ | ⟨l0, rest⟩
  · rfl
  · have hl0 : ¬ (!(l0 == "")) = true := by
      have := List.head?_dropWhile_not (fun l => !(l == "")) (lines.drop 1)
      rw [hdw] at this
      simpa using this
    have : l0 = "" := by simpa using hl0
    simp [this]

/-- Witness for C4: importing a header plus one 18-field record updates the
registered election with `("r1", "ndp", 1234)`. -/
theorem C4_read_results_forwards_witness :
    Jurisdiction.read_results
      { name := "Canada",
        elections := [(⟨2015, 2, 3⟩, Election.init ⟨2015, 2, 3⟩)] }
      2015 2 3
      ["header", "0,\"r1\",2,3,4,5,6,7,8,9,10,11,12,\"ndp\",14,15,16,1234\n"] =
      ({ name := "Canada",
         elections :=
           setKey ⟨2015, 2, 3⟩
             (applyUpdates (Election.init ⟨2015, 2, 3⟩) [("r1", "ndp", 1234)])
             [(⟨2015, 2, 3⟩, Election.init ⟨2015, 2, 3⟩)] },
       none) :=
  C4_read_results_forwards _ 2015 2 3 (Election.init ⟨2015, 2, 3⟩) _
    [("r1", "ndp", 1234)] rfl rfl

/-- C8: a malformed line (too few fields or a non-numeric vote field) aborts
the import with that parsing error: lines after it are never processed (the
result does not depend on `rest`), while the updates from the well-formed
lines before it remain applied — no rollback. -/
theorem C8_malformed_line_fatal (j : Jurisdiction) (year month day : Nat)
    (e : Election) (header : String) (good : List String) (bad : String)
    (rest : List String) (triples : List (String × String × Int))
    (err : ReadError)
    (hreg : lookupA ⟨year, month, day⟩ j.elections = some e)
    (hne : ∀ l ∈ good, l ≠ "")
    (hgood : parseAll good = some triples)
    (hbadne : bad ≠ "")
    (hbad : parseLine bad = Except.error err) :
    j.read_results year month day (header :: (good ++ bad :: rest)) =
      ({ name := j.name,
         elections :=
           setKey ⟨year, month, day⟩ (applyUpdates e triples) j.elections },
       some err) := by
  unfold Jurisdiction.read_results
  simp only [List.drop_succ_cons, List.drop_zero]
  rw [read_loop_append _ _ _ _ _ _ hreg hne hgood]
  simp only [read_loop]
  rw [if_neg hbadne, hbad]

/-- Witness for C8: one good line then a 4-field line: the good line's update
is applied and the import ends with an IndexError. -/
theorem C8_malformed_line_fatal_witness :
    Jurisdiction.read_results
      { name := "Canada",
        elections := [(⟨2015, 2, 3⟩, Election.init ⟨2015, 2, 3⟩)] }
      2015 2 3
      ["header", "0,\"r1\",2,3,4,5,6,7,8,9,10,11,12,\"ndp\",14,15,16,1234\n",
        "0,\"r2\",2,3", "ignored"] =
      ({ name := "Canada",
         elections :=
           setKey ⟨2015, 2, 3⟩
             (applyUpdates (Election.init ⟨2015, 2, 3⟩) [("r1", "ndp", 1234)])
             [(⟨2015, 2, 3⟩, Election.init ⟨2015, 2, 3⟩)] },
       some ReadError.indexError) :=
  C8_malformed_line_fatal _ 2015 2 3 (Election.init ⟨2015, 2, 3⟩) "header"
    ["0,\"r1\",2,3,4,5,6,7,8,9,10,11,12,\"ndp\",14,15,16,1234\n"]
    "0,\"r2\",2,3" ["ignored"] [("r1", "ndp", 1234)] ReadError.indexError
    rfl (by decide) rfl (by decide) rfl

/-- C9 counterexample: the claim quantifies over every stream, but with no
election registered a header-only stream makes `read_results` return
normally — no lookup error is raised and the state is untouched. -/
theorem C9_counterexample :
    (Jurisdiction.init "Canada").read_results 2015 2 3 ["header"] =
      (Jurisdiction.init "Canada", none) := rfl

/-- C9 (amended): if the stream does contain a data line after the header and
that first data line is non-empty and parses cleanly, then routing to an
unregistered date fails with the lookup error (KeyError) and the jurisdiction
is left unchanged. -/
theorem C9_unregistered_date_keyerror (j : Jurisdiction) (year month day : Nat)
    (header line : String) (rest : List String) (t : String × String × Int)
    (hnone : lookupA ⟨year, month, day⟩ j.elections = none)
    (hline : line ≠ "")
    (hok : parseLine line = Except.ok t) :
    j.read_results year month day (header :: line :: rest) =
      (j, some ReadError.keyError) := by
  unfold Jurisdiction.read_results
  simp only [List.drop_succ_cons, List.drop_zero, read_loop]
  rw [if_neg hline, hok]
  obtain ⟨tr, tp, tv⟩ := t
  simp [hnone]

/-- Witness for C9 (amended) at a concrete unregistered jurisdiction. -/
theorem C9_unregistered_date_keyerror_witness :
    (Jurisdiction.init "Canada").read_results 2015 2 3
      ["header", "0,\"r1\",2,3,4,5,6,7,8,9,10,11,12,\"ndp\",14,15,16,1234\n"] =
      (Jurisdiction.init "Canada", some ReadError.keyError) :=
  C9_unregistered_date_keyerror (Jurisdiction.init "Canada") 2015 2 3 "header"
    "0,\"r1\",2,3,4,5,6,7,8,9,10,11,12,\"ndp\",14,15,16,1234\n" []
    ("r1", "ndp", 1234) rfl (by decide) rfl

/-- C10: whenever the second read of the stream is empty (header-only or
empty stream), `read_results` returns normally with no error and no state
change, for every jurisdiction — registered or not; consequently the
missing-registration KeyError can only arise when some non-empty line follows
the header. -/
theorem C10_header_only_noop (j : Jurisdiction) (year month day : Nat)
    (lines : List String) :
    ((lines.drop 1).head?.getD "" = "" →
      j.read_results year month day lines = (j, none)) ∧
    ((j.read_results year month day lines).2 = some ReadError.keyError →
      ∃ line, (lines.drop 1).head? = some line ∧ line ≠ "") := by
  constructor
  · intro h
    unfold Jurisdiction.read_results
    exact read_loop_stop _ _ _ h
  · intro h
    rcases hdrop : lines.drop 1 with _ | ⟨l0, rest⟩
    · exfalso
      unfold Jurisdiction.read_results at h
      rw [hdrop] at h
      simp [read_loop] at h
    · by_cases hl0 : l0 = ""
      · exfalso
        unfold Jurisdiction.read_results at h
        rw [hdrop] at h
        simp [read_loop, hl0] at h
      · exact ⟨l0, List.head?_cons, hl0⟩

/-- Witness for C10: an empty stream on an unregistered jurisdiction returns
normally with no error. -/
theorem C10_header_only_noop_witness :
    (Jurisdiction.init "Canada").read_results 2015 2 3 [] =
      (Jurisdiction.init "Canada", none) :=
  (C10_header_only_noop (Jurisdiction.init "Canada") 2015 2 3 []).1 rfl

end ElectionTester
